import Mathlib

/-!
Verification of the caelum-revelat filter DSL.

The development embeds the three components of the library:
expression parsing (binary-filter-expression), group assembly
(logical-group-expression) and parameter building (filterParams),
together with the regular-expression tokenizer they rely on.
Strings are modelled as lists of characters; JavaScript runtime values
are modelled by the inductive type JSValue; functions that throw are
modelled with Except.
-/

/-- Word characters of the regex: letters, digits and the underscore
(the JavaScript word character class). -/
def isWordChar (c : Char) : Bool :=
  let n := c.toNat
  (decide (65 ≤ n) && decide (n ≤ 90)) ||
  (decide (97 ≤ n) && decide (n ≤ 122)) ||
  (decide (48 ≤ n) && decide (n ≤ 57)) ||
  n == 95

/-- JavaScript whitespace (the regex whitespace class): ASCII whitespace,
NBSP, the Unicode space separators, line/paragraph separators and the BOM. -/
def isSpaceChar (c : Char) : Bool :=
  let n := c.toNat
  n == 9 || n == 10 || n == 11 || n == 12 || n == 13 || n == 32 ||
  n == 160 || n == 5760 || (decide (8192 ≤ n) && decide (n ≤ 8202)) ||
  n == 8232 || n == 8233 || n == 8239 || n == 8287 || n == 12288 || n == 65279

/-- Literal prefix test on character lists (first argument is the pattern). -/
def startsWith : List Char → List Char → Bool
  | [], _ => true
  | _ :: _, [] => false
  | a :: as, b :: bs => if a = b then startsWith as bs else false

/-- Word-boundary test for the position right after a word character: the
boundary holds when the remaining input is empty or starts with a non-word
character. -/
def boundaryOk : List Char → Bool
  | [] => true
  | c :: _ => !isWordChar c

/-- The ten operator codes, as an inductive type. The source spells the
membership operator with the reserved word in, hence inOp here. -/
inductive Operator where
  | sw | ew | ct | eq | gt | gte | lt | lte | inOp | bt
deriving DecidableEq

/-- Spelling of each operator code, as in the OPERATORS array of the source. -/
def opChars : Operator → List Char
  | .sw => ['s', 'w']
  | .ew => ['e', 'w']
  | .ct => ['c', 't']
  | .eq => ['e', 'q']
  | .gt => ['g', 't']
  | .gte => ['g', 't', 'e']
  | .lt => ['l', 't']
  | .lte => ['l', 't', 'e']
  | .inOp => ['i', 'n']
  | .bt => ['b', 't']

/-- Operator code as a string, for error messages and duck-typing checks. -/
def opStr (op : Operator) : String := String.mk (opChars op)

/-- The OPERATORS array of the source, in source order. The regex alternation
is built by joining exactly this list with the bar character. -/
def OPERATORS : List Operator :=
  [.sw, .ew, .ct, .eq, .gt, .gte, .lt, .lte, .inOp, .bt]

/-- Source isOperator: membership of a string in the OPERATORS array. -/
def isOperator (value : String) : Bool :=
  OPERATORS.any (fun op => opStr op == value)

/-- The negation marker literal of the regex. -/
def notMarker : List Char := ['n', 'o', 't', '_']

/-- Operator alternation of EXPRESSION_RE followed by a word boundary:
the first operator, in OPERATORS order, whose spelling is a prefix of the
input with a word boundary right after it. -/
def matchOperator (l : List Char) : Option Operator :=
  OPERATORS.find? (fun op =>
    startsWith (opChars op) l && boundaryOk (l.drop (opChars op).length))

/-- The optional greedy negation-marker group of EXPRESSION_RE followed by the
operator alternation: try the marker first and fall back to the bare
operator when the marked branch fails, as regex backtracking does. -/
def matchNotOp (l : List Char) : Option (Bool × Operator) :=
  if startsWith notMarker l then
    match matchOperator (l.drop 4) with
    | some op => some (true, op)
    | none => (matchOperator l).map (fun op => (false, op))
  else
    (matchOperator l).map (fun op => (false, op))

/-- One attempt of EXPRESSION_RE at the head of the input. The lazy key
group together with the mandatory whitespace forces the key to be the
maximal word run at this position; the lazy whitespace followed by a word
boundary forces the whitespace to be the maximal space run ending right
before a word character. -/
def tryAt (l : List Char) : Option (List Char × Bool × Operator) :=
  if (l.takeWhile isWordChar).isEmpty then none
  else if ((l.dropWhile isWordChar).takeWhile isSpaceChar).isEmpty then none
  else
    match (l.dropWhile isWordChar).dropWhile isSpaceChar with
    | [] => none
    | c :: t =>
      if isWordChar c then
        (matchNotOp (c :: t)).map (fun p => (l.takeWhile isWordChar, p.1, p.2))
      else none

/-- EXPRESSION_RE.exec: scan left to right for the first position where the
pattern matches, returning the named groups key, not and operator. -/
def execRE : List Char → Option (List Char × Bool × Operator)
  | [] => none
  | c :: cs =>
    match tryAt (c :: cs) with
    | some r => some r
    | none => execRE cs

/-- Model of the JavaScript runtime values the library can receive. -/
inductive JSValue where
  | str (s : String)
  | num (n : Int)
  | bool (b : Bool)
  | null
  | undefined
  | arr (xs : List JSValue)
  | obj (fields : List (String × JSValue))

/-- The JavaScript typeof operator on modelled values. -/
def typeof : JSValue → String
  | .str _ => "string"
  | .num _ => "number"
  | .bool _ => "boolean"
  | .null => "object"
  | .undefined => "undefined"
  | .arr _ => "object"
  | .obj _ => "object"

/-- Strict equality with the null literal. -/
def isNull : JSValue → Bool
  | .null => true
  | _ => false

/-- Array.isArray. -/
def isJSArray : JSValue → Bool
  | .arr _ => true
  | _ => false

/-- The JavaScript in operator (property presence) on objects and arrays. -/
def hasProp (v : JSValue) (k : String) : Bool :=
  match v with
  | .obj fs => fs.any (fun p => p.1 == k)
  | .arr xs => k == "length" || (List.range xs.length).any (fun i => toString i == k)
  | _ => false

/-- Property read on objects and arrays; undefined elsewhere. -/
def getProp (v : JSValue) (k : String) : JSValue :=
  match v with
  | .obj fs =>
    match fs.find? (fun p => p.1 == k) with
    | some p => p.2
    | none => .undefined
  | .arr xs =>
    if k == "length" then .num xs.length
    else
      match (List.range xs.length).find? (fun i => toString i == k) with
      | some i => xs.getD i .undefined
      | none => .undefined
  | _ => .undefined

/-- Read a modelled value as a string, for use under a typeof string guard. -/
def asString : JSValue → String
  | .str s => s
  | _ => ""

/-- Strict equality of a modelled value with a number literal. -/
def strictEqNum (v : JSValue) (n : Int) : Bool :=
  match v with
  | .num m => m == n
  | _ => false

/-- Source acceptableValue: verify that the operator and the value are
compatible, returning true or throwing the operator-specific error. -/
def acceptableValue (operator : Operator) (value : JSValue) : Except String Bool :=
  match operator with
  | .sw | .ew | .ct =>
    if typeof value == "string" then .ok true
    else .error ("The \"" ++ opStr operator ++ "\" operator requires a string value")
  | .eq | .gt | .gte | .lt | .lte =>
    if typeof value == "string" || typeof value == "number" ||
        typeof value == "boolean" || isNull value then .ok true
    else .error ("The \"" ++ opStr operator ++ "\" operator was given a complex value")
  | .inOp =>
    if isJSArray value && decide (0 < (match value with | .arr xs => xs.length | _ => 0)) then
      .ok true
    else .error "The \"in\" operator requires an array value of non-zero length"
  | .bt =>
    if typeof value == "object" && !isNull value && hasProp value "0" && hasProp value "1" then
      .ok true
    else .error "The \"bt\" operator requires an array-like value containing exactly two constants"

/-- The record produced by the expression parser. The source field name for
the negation flag is not, kept here; it holds 0 or 1 (BooleanNumber). -/
structure BinaryFilterExpression where
  key : List Char
  operator : Operator
  value : JSValue
  not : Nat

/-- Message of the malformed-expression error. The source appends the JSON
of the offending literal segment, which is irrelevant to branch identity
and omitted here. -/
def invalidExpressionMsg : String := "Invalid expression - missing key or operator"

namespace BinaryFilter

/-- Source parse of binary-filter-expression: the template-literal tag.
The first literal segment is the expression text; strings holds the
remaining literal segments; value is the first interpolated value and
values the remaining ones. The truthiness test on the matched key is the
emptiness test, and the matched operator group is rechecked against the
operator list exactly as the source does. -/
def parse (expression : List Char) (strings : List (List Char))
    (value : JSValue) (values : List JSValue) : Except String BinaryFilterExpression :=
  if expression.length > 2 ∧ strings.length = 1 ∧ values.length = 0 then
    match execRE expression with
    | some (key, nf, operator) =>
      if key ≠ [] ∧ isOperator (opStr operator) = true then
        match acceptableValue operator value with
        | .ok true => .ok ⟨key, operator, value, if nf then 1 else 0⟩
        | .ok false => .error invalidExpressionMsg
        | .error msg => .error msg
      else .error invalidExpressionMsg
    | none => .error invalidExpressionMsg
  else .error "Only a single expression is supported"

end BinaryFilter

/-- Source isBinaryFilterExpression: duck-typed structural check used by the
group assembler and the parameter builder. -/
def isBinaryFilterExpression (value : JSValue) (strict : Bool) : Bool :=
  typeof value == "object" &&
  !isNull value &&
  hasProp value "key" &&
  hasProp value "operator" &&
  hasProp value "value" &&
  typeof (getProp value "key") == "string" &&
  typeof (getProp value "operator") == "string" &&
  isOperator (asString (getProp value "operator")) &&
  (!strict || (hasProp value "not" &&
    (strictEqNum (getProp value "not") 1 || strictEqNum (getProp value "not") 0)))

/-- The record produced by the group assembler. Filters are kept in their
JavaScript object form because the source collects them from untyped
interpolated values. -/
structure FilterGroup where
  or : Nat
  filters : List JSValue

/-- JavaScript trim: strip whitespace from both ends. -/
def trimChars (s : List Char) : List Char :=
  ((s.dropWhile isSpaceChar).reverse.dropWhile isSpaceChar).reverse

/-- The set of distinct non-empty trimmed literal segments of a group
template. The source builds a Set of the trimmed segments and then deletes
the empty string; only membership and size of that set are ever used, so
the set is modelled as a deduplicated list. -/
def distinctKeywords (strings : List (List Char)) : List (List Char) :=
  ((strings.map trimChars).filter (fun s => s ≠ [])).dedup

namespace LogicalGroup

/-- Source parse of logical-group-expression: the template-literal tag
assembling already-parsed expressions into a FilterGroup. -/
def parse (strings : List (List Char)) (values : List JSValue) : Except String FilterGroup :=
  if values.length = 0 then .error "A filter group may not be empty"
  else if (distinctKeywords strings).length = 0 ∨ (distinctKeywords strings).length = 1 then
    if values.length > (values.filter (fun v => isBinaryFilterExpression v true)).length then
      .error "All values must be a BinaryFilterExpression"
    else
      .ok ⟨if ['o', 'r'] ∈ distinctKeywords strings then 1 else 0,
        values.filter (fun v => isBinaryFilterExpression v true)⟩
  else .error "Cannot parse logical expressions (filter group)"

end LogicalGroup

/-- The parameter container produced by filterParams. Groups are kept in
their JavaScript object form since bare expressions pass through the same
duck-typed check that the assembler uses. -/
structure FilterParameters where
  filter_groups : List JSValue

/-- The object form of a singleton conjunction group wrapping one
expression value. -/
def singletonGroup (v : JSValue) : JSValue :=
  .obj [("or", .num 0), ("filters", .arr [v])]

/-- Source filterParams: map each positional item, wrapping values that
satisfy isBinaryFilterExpression into a singleton conjunction group and
passing every other item through unchanged. It is a total function: it
never fails. -/
def filterParams (groups : List JSValue) : FilterParameters :=
  ⟨groups.map (fun value =>
    if isBinaryFilterExpression value true then singletonGroup value else value)⟩

/-- Value-shape table of the specification, written from its words: the
starts-with family requires a string; the comparison family requires a
string, number, boolean or null scalar; membership requires a non-empty
array; between requires an array-like value with indices 0 and 1 present. -/
def specValueShape (op : Operator) (v : JSValue) : Bool :=
  match op with
  | .sw | .ew | .ct => typeof v == "string"
  | .eq | .gt | .gte | .lt | .lte =>
    typeof v == "string" || typeof v == "number" || typeof v == "boolean" || isNull v
  | .inOp => match v with | .arr xs => decide (0 < xs.length) | _ => false
  | .bt => (typeof v == "object" && !isNull v) && hasProp v "0" && hasProp v "1"

/-- The per-family failure message of the value-shape table. -/
def shapeErrorMsg (op : Operator) : String :=
  match op with
  | .sw | .ew | .ct => "The \"" ++ opStr op ++ "\" operator requires a string value"
  | .eq | .gt | .gte | .lt | .lte =>
    "The \"" ++ opStr op ++ "\" operator was given a complex value"
  | .inOp => "The \"in\" operator requires an array value of non-zero length"
  | .bt => "The \"bt\" operator requires an array-like value containing exactly two constants"

/-- A well-formed expression text: key, whitespace, optional negation
marker, operator code, and a remainder that keeps the word boundary. -/
def exprText (k ws : List Char) (nf : Bool) (op : Operator) (tail : List Char) : List Char :=
  k ++ (ws ++ ((if nf then notMarker else []) ++ (opChars op ++ tail)))

/-- A concrete parsed-expression object in JavaScript form, for witnesses. -/
def sampleExpr (k : String) (n : Int) : JSValue :=
  JSValue.obj [("key", JSValue.str k), ("operator", JSValue.str "eq"),
    ("value", JSValue.num n), ("not", JSValue.num 0)]

theorem space_not_word {c : Char} (h : isSpaceChar c = true) : isWordChar c = false := by
  cases hw : isWordChar c
  · rfl
  · exfalso
    simp only [isSpaceChar, isWordChar, Bool.or_eq_true, Bool.and_eq_true,
      decide_eq_true_eq, beq_iff_eq] at h hw
    omega

theorem boundaryOk_cons (c : Char) (t : List Char) : boundaryOk (c :: t) = !isWordChar c := rfl

theorem wordChar_e : isWordChar 'e' = true := by decide

theorem matchOperator_canonical (op : Operator) (tail : List Char) (hb : boundaryOk tail = true) :
    matchOperator (opChars op ++ tail) = some op := by
  cases op <;>
    simp [matchOperator, OPERATORS, opChars, startsWith, List.find?, boundaryOk_cons,
      wordChar_e, hb]

theorem startsWith_append_self (xs t : List Char) : startsWith xs (xs ++ t) = true := by
  induction xs with
  | nil => rfl
  | cons a as ih => simp [startsWith, ih]

theorem matchNotOp_canonical (nf : Bool) (op : Operator) (tail : List Char)
    (hb : boundaryOk tail = true) :
    matchNotOp ((if nf then notMarker else []) ++ (opChars op ++ tail)) = some (nf, op) := by
  cases nf
  · have h1 : startsWith notMarker (opChars op ++ tail) = false := by
      cases op <;> simp [startsWith, notMarker, opChars]
    simp [matchNotOp, h1, matchOperator_canonical op tail hb]
  · have h1 : startsWith notMarker (notMarker ++ (opChars op ++ tail)) = true :=
      startsWith_append_self _ _
    have h2 : (notMarker ++ (opChars op ++ tail)).drop 4 = opChars op ++ tail := by
      simp [notMarker]
    simp [matchNotOp, h1, h2, matchOperator_canonical op tail hb]

theorem marker_op_head (nf : Bool) (op : Operator) (tail : List Char) :
    ∃ c t, (if nf then notMarker else []) ++ (opChars op ++ tail) = c :: t ∧
      isWordChar c = true := by
  cases nf
  · cases op <;> exact ⟨_, _, rfl, by decide⟩
  · exact ⟨'n', _, rfl, by decide⟩

theorem tryAt_canonical (k ws tail : List Char) (nf : Bool) (op : Operator)
    (hk : k ≠ []) (hkw : ∀ c ∈ k, isWordChar c = true)
    (hws : ws ≠ []) (hwss : ∀ c ∈ ws, isSpaceChar c = true)
    (hb : boundaryOk tail = true) :
    tryAt (k ++ (ws ++ ((if nf then notMarker else []) ++ (opChars op ++ tail)))) =
      some (k, nf, op) := by
  obtain ⟨c0, t0, hct, hcw⟩ := marker_op_head nf op tail
  obtain ⟨w, ws', rfl⟩ := List.exists_cons_of_ne_nil hws
  have hwword : isWordChar w = false := space_not_word (hwss w (List.mem_cons_self w ws'))
  have hcspace : isSpaceChar c0 = false := by
    cases hs : isSpaceChar c0
    · rfl
    · rw [space_not_word hs] at hcw
      exact Bool.noConfusion hcw
  have hA : (k ++ ((w :: ws') ++ ((if nf then notMarker else []) ++
      (opChars op ++ tail)))).takeWhile isWordChar = k := by
    rw [List.takeWhile_append_of_pos hkw]
    simp [List.takeWhile_cons, hwword]
  have hB : (k ++ ((w :: ws') ++ ((if nf then notMarker else []) ++
      (opChars op ++ tail)))).dropWhile isWordChar =
      (w :: ws') ++ ((if nf then notMarker else []) ++ (opChars op ++ tail)) := by
    rw [List.dropWhile_append_of_pos hkw]
    simp [List.dropWhile_cons, hwword]
  have hC : ((w :: ws') ++ ((if nf then notMarker else []) ++
      (opChars op ++ tail))).takeWhile isSpaceChar = w :: ws' := by
    rw [List.takeWhile_append_of_pos hwss]
    rw [hct]
    simp [List.takeWhile_cons, hcspace]
  have hD : ((w :: ws') ++ ((if nf then notMarker else []) ++
      (opChars op ++ tail))).dropWhile isSpaceChar =
      (if nf then notMarker else []) ++ (opChars op ++ tail) := by
    rw [List.dropWhile_append_of_pos hwss]
    rw [hct]
    simp [List.dropWhile_cons, hcspace]
  rw [tryAt, hA, hB, hC, hD, hct]
  have hknil : k.isEmpty = false := by
    obtain ⟨a, k', rfl⟩ := List.exists_cons_of_ne_nil hk
    rfl
  rw [hknil]
  simp only [Bool.false_eq_true, if_false, List.isEmpty_cons, hcw, if_true]
  rw [← hct, matchNotOp_canonical nf op tail hb]
  rfl

theorem execRE_of_tryAt {l : List Char} {r : List Char × Bool × Operator}
    (hl : l ≠ []) (h : tryAt l = some r) : execRE l = some r := by
  obtain ⟨c, cs, rfl⟩ := List.exists_cons_of_ne_nil hl
  rw [execRE, h]

theorem tryAt_space_head {w : Char} {t : List Char} (hw : isSpaceChar w = true) :
    tryAt (w :: t) = none := by
  rw [tryAt]
  simp [List.takeWhile_cons, space_not_word hw]

theorem execRE_leading_spaces (ws0 l : List Char) (h : ∀ c ∈ ws0, isSpaceChar c = true) :
    execRE (ws0 ++ l) = execRE l := by
  induction ws0 with
  | nil => rfl
  | cons w ws ih =>
    have hw := h w (List.mem_cons_self w ws)
    rw [List.cons_append, execRE, tryAt_space_head hw]
    exact ih (fun c hc => h c (List.mem_cons_of_mem w hc))

theorem isOperator_opStr (op : Operator) : isOperator (opStr op) = true := by
  cases op <;> rfl

theorem opChars_length (op : Operator) : 2 ≤ (opChars op).length := by
  cases op <;> decide

theorem acceptableValue_eq (op : Operator) (v : JSValue) :
    acceptableValue op v = if specValueShape op v then .ok true else .error (shapeErrorMsg op) := by
  cases op <;> cases v <;>
    simp [acceptableValue, specValueShape, shapeErrorMsg, typeof, isNull, isJSArray]

theorem shapeErrorMsg_ne_invalid (op : Operator) : shapeErrorMsg op ≠ invalidExpressionMsg := by
  cases op <;> decide

theorem tryAt_key_ne_nil {l key : List Char} {nf : Bool} {op : Operator}
    (h : tryAt l = some (key, nf, op)) : key ≠ [] := by
  cases hemp : (l.takeWhile isWordChar).isEmpty with
  | true =>
    rw [tryAt, if_pos hemp] at h
    exact absurd h (by simp)
  | false =>
    rw [tryAt, if_neg (by simp [hemp])] at h
    have hne : l.takeWhile isWordChar ≠ [] := by
      intro hn
      rw [hn] at hemp
      exact Bool.noConfusion hemp
    split at h
    · exact absurd h (by simp)
    · split at h
      · exact absurd h (by simp)
      · split at h
        · obtain ⟨p, hp, hk⟩ := Option.map_eq_some'.mp h
          have hkey : l.takeWhile isWordChar = key := congrArg (fun q => q.1) hk
          exact hkey ▸ hne
        · exact absurd h (by simp)

theorem execRE_key_ne_nil : ∀ {l key : List Char} {nf : Bool} {op : Operator},
    execRE l = some (key, nf, op) → key ≠ [] := by
  intro l
  induction l with
  | nil => intro key nf op h; exact absurd h (by simp [execRE])
  | cons c cs ih =>
    intro key nf op h
    rw [execRE] at h
    cases htry : tryAt (c :: cs) with
    | none => rw [htry] at h; exact ih h
    | some r =>
      rw [htry] at h
      cases h
      exact tryAt_key_ne_nil htry

theorem parse_wellformed (ws0 k ws tail : List Char) (nf : Bool) (op : Operator)
    (s : List Char) (value : JSValue)
    (hws0 : ∀ c ∈ ws0, isSpaceChar c = true)
    (hk : k ≠ []) (hkw : ∀ c ∈ k, isWordChar c = true)
    (hws : ws ≠ []) (hwss : ∀ c ∈ ws, isSpaceChar c = true)
    (hb : boundaryOk tail = true) :
    BinaryFilter.parse
      (ws0 ++ (k ++ (ws ++ ((if nf then notMarker else []) ++ (opChars op ++ tail)))))
      [s] value [] =
      match acceptableValue op value with
      | .ok true => .ok ⟨k, op, value, if nf then 1 else 0⟩
      | .ok false => .error invalidExpressionMsg
      | .error msg => .error msg := by
  have hlen : 2 < (ws0 ++ (k ++ (ws ++ ((if nf then notMarker else []) ++
      (opChars op ++ tail))))).length := by
    have h1 : 1 ≤ k.length := List.length_pos.mpr hk
    have h2 : 1 ≤ ws.length := List.length_pos.mpr hws
    have h3 : 2 ≤ (opChars op).length := opChars_length op
    simp only [List.length_append]
    omega
  have hexec : execRE (ws0 ++ (k ++ (ws ++ ((if nf then notMarker else []) ++
      (opChars op ++ tail))))) = some (k, nf, op) := by
    rw [execRE_leading_spaces ws0 _ hws0]
    refine execRE_of_tryAt ?_ (tryAt_canonical k ws tail nf op hk hkw hws hwss hb)
    obtain ⟨a, k', rfl⟩ := List.exists_cons_of_ne_nil hk
    simp
  have hc1 : (ws0 ++ (k ++ (ws ++ ((if nf then notMarker else []) ++
      (opChars op ++ tail))))).length > 2 ∧ ([s] : List (List Char)).length = 1 ∧
      ([] : List JSValue).length = 0 := ⟨hlen, rfl, rfl⟩
  rw [BinaryFilter.parse, if_pos hc1]
  simp only [hexec]
  have hc2 : k ≠ [] ∧ isOperator (opStr op) = true := ⟨hk, isOperator_opStr op⟩
  rw [if_pos hc2]

theorem G_parse_success (strings : List (List Char)) (values : List JSValue)
    (hne : values ≠ []) (hall : ∀ v ∈ values, isBinaryFilterExpression v true = true)
    (hlen : (distinctKeywords strings).length ≤ 1) :
    LogicalGroup.parse strings values =
      Except.ok ⟨if ['o', 'r'] ∈ distinctKeywords strings then 1 else 0, values⟩ := by
  have hfilter : values.filter (fun v => isBinaryFilterExpression v true) = values :=
    List.filter_eq_self.mpr hall
  rw [LogicalGroup.parse, if_neg (fun h => hne (List.length_eq_zero.mp h)),
    if_pos (by omega), hfilter, if_neg (by omega)]

/-- Claim C1: for a call with exactly one interpolated value whose first
literal segment is a key token, whitespace and a valid operator code
(optionally preceded by the negation marker), and whose value satisfies the
operator's shape requirement, parse succeeds and returns the record with
that key, the bare operator, the value, and the not flag 1 exactly when
the marker was present (0 otherwise). -/
theorem claim_C1 (k ws tail s : List Char) (nf : Bool) (op : Operator) (value : JSValue)
    (hk : k ≠ []) (hkw : ∀ c ∈ k, isWordChar c = true)
    (hws : ws ≠ []) (hwss : ∀ c ∈ ws, isSpaceChar c = true)
    (hb : boundaryOk tail = true)
    (hval : acceptableValue op value = Except.ok true) :
    BinaryFilter.parse (exprText k ws nf op tail) [s] value [] =
      Except.ok ⟨k, op, value, if nf then 1 else 0⟩ := by
  have h := parse_wellformed [] k ws tail nf op s value (fun c hc => absurd hc (List.not_mem_nil c))
    hk hkw hws hwss hb
  rw [List.nil_append] at h
  rw [exprText, h, hval]

/-- Witness for claim C1 at the input age not_gt with value 5. -/
theorem claim_C1_witness :
    BinaryFilter.parse "age not_gt ".data [[]] (JSValue.num 5) [] =
      Except.ok ⟨"age".data, Operator.gt, JSValue.num 5, 1⟩ :=
  claim_C1 "age".data " ".data " ".data [] true .gt (JSValue.num 5)
    (by decide) (by decide) (by decide) (by decide) (by decide) rfl

/-- Claim C2: acceptableValue decides exactly the per-operator value-shape
table of the specification, returning true when the shape matches and the
family-specific ParseError otherwise. -/
theorem claim_C2 (op : Operator) (v : JSValue) :
    acceptableValue op v =
      if specValueShape op v then Except.ok true else Except.error (shapeErrorMsg op) :=
  acceptableValue_eq op v

/-- Claim C3: when every interpolated value is an expression and at least
one is supplied, group assembly succeeds exactly when the set of distinct
non-empty trimmed literal segments has size at most one, the disjunction
flag being 1 exactly when that set contains the keyword or; with two or
more distinct segments assembly fails with the mixed-operators GroupError,
wherever the keywords sit. -/
theorem claim_C3 (strings : List (List Char)) (values : List JSValue)
    (hne : values ≠ []) (hall : ∀ v ∈ values, isBinaryFilterExpression v true = true) :
    ((distinctKeywords strings).length ≤ 1 →
      LogicalGroup.parse strings values =
        Except.ok ⟨if ['o', 'r'] ∈ distinctKeywords strings then 1 else 0, values⟩) ∧
    (2 ≤ (distinctKeywords strings).length →
      LogicalGroup.parse strings values =
        Except.error "Cannot parse logical expressions (filter group)") := by
  constructor
  · exact G_parse_success strings values hne hall
  · intro h2
    rw [LogicalGroup.parse, if_neg (fun h => hne (List.length_eq_zero.mp h)),
      if_neg (by omega)]

/-- Witness for claim C3 at a two-expression disjunction template. -/
theorem claim_C3_witness :
    LogicalGroup.parse [[], " or ".data, []] [sampleExpr "a" 1, sampleExpr "b" 2] =
      Except.ok ⟨1, [sampleExpr "a" 1, sampleExpr "b" 2]⟩ :=
  (claim_C3 [[], " or ".data, []] [sampleExpr "a" 1, sampleExpr "b" 2]
    (List.cons_ne_nil _ _) (by decide)).1 (by decide)

/-- Claim C4: filterParams never fails and returns a container whose group
list has the same length and order as the input, each item satisfying the
expression predicate being wrapped into a singleton conjunction group and
every other item passed through unchanged; zero items give the empty
group list. -/
theorem claim_C4 (items : List JSValue) :
    (filterParams items).filter_groups.length = items.length ∧
    (∀ i : Nat, (filterParams items).filter_groups[i]? =
      (items[i]?).map (fun v =>
        if isBinaryFilterExpression v true then singletonGroup v else v)) ∧
    filterParams [] = ⟨[]⟩ := by
  refine ⟨by simp [filterParams], ?_, rfl⟩
  intro i
  simp [filterParams]

/-- Claim C5: a call to the expression parser with zero interpolated
values, or with two or more, fails with the single-expression ParseError
regardless of the literal segments. -/
theorem claim_C5 (expression : List Char) (strings : List (List Char)) (value : JSValue)
    (values : List JSValue)
    (h : (strings = [] ∧ values = []) ∨
      (2 ≤ strings.length ∧ values.length = strings.length - 1)) :
    BinaryFilter.parse expression strings value values =
      Except.error "Only a single expression is supported" := by
  rw [BinaryFilter.parse, if_neg]
  rintro ⟨-, h2, h3⟩
  rcases h with ⟨rfl, rfl⟩ | ⟨hge, hlen⟩
  · exact absurd h2 (by simp)
  · omega

/-- Witness for claim C5 at a zero-interpolation call. -/
theorem claim_C5_witness :
    BinaryFilter.parse "a eq 1".data [] JSValue.undefined [] =
      Except.error "Only a single expression is supported" :=
  claim_C5 "a eq 1".data [] JSValue.undefined [] (Or.inl ⟨rfl, rfl⟩)

/-- Claim C6: group assembly with zero interpolated values fails with the
empty-group GroupError, and, with at most one distinct non-empty keyword,
any interpolated value failing the shared expression predicate makes it
fail with the all-values GroupError; in both cases no group is returned. -/
theorem claim_C6 :
    (∀ strings : List (List Char),
      LogicalGroup.parse strings [] = Except.error "A filter group may not be empty") ∧
    (∀ (strings : List (List Char)) (values : List JSValue),
      (distinctKeywords strings).length ≤ 1 →
      (∃ v ∈ values, isBinaryFilterExpression v true = false) →
      LogicalGroup.parse strings values =
        Except.error "All values must be a BinaryFilterExpression") := by
  constructor
  · intro strings
    rfl
  · rintro strings values hlen ⟨v, hv, hbad⟩
    have hpos : 0 < values.length := List.length_pos.mpr (List.ne_nil_of_mem hv)
    have hle := List.length_filter_le (fun v => isBinaryFilterExpression v true) values
    have hne : (values.filter (fun v => isBinaryFilterExpression v true)).length ≠
        values.length := by
      intro heq
      have hall := List.filter_length_eq_length.mp heq
      rw [hall v hv] at hbad
      exact Bool.noConfusion hbad
    rw [LogicalGroup.parse, if_neg (by omega), if_pos (by omega), if_pos (by omega)]

/-- Witness for claim C6 at a single raw-string interpolation. -/
theorem claim_C6_witness :
    LogicalGroup.parse [[], []] [JSValue.str "weight gt 150"] =
      Except.error "All values must be a BinaryFilterExpression" :=
  claim_C6.2 [[], []] [JSValue.str "weight gt 150"] (by decide)
    ⟨JSValue.str "weight gt 150", List.mem_cons_self _ _, rfl⟩

/-- Counterexample to claim C7: a template whose only non-empty trimmed
segment is xor, with two valid expression values, is accepted by the
assembler with the conjunction combinator instead of failing. -/
theorem claim_C7_counterexample :
    LogicalGroup.parse [[], " xor ".data, []] [sampleExpr "a" 1, sampleExpr "b" 2] =
      Except.ok ⟨0, [sampleExpr "a" 1, sampleExpr "b" 2]⟩ := rfl

/-- Claim C7 as amended: a group template whose distinct non-empty trimmed
segments form a single string different from the keyword or is accepted,
with the conjunction combinator, whenever at least one value is supplied
and all values are expressions; only two or more distinct segments make
assembly fail. -/
theorem claim_C7 (strings : List (List Char)) (values : List JSValue) (s : List Char)
    (hS : distinctKeywords strings = [s]) (hor : s ≠ ['o', 'r'])
    (hne : values ≠ []) (hall : ∀ v ∈ values, isBinaryFilterExpression v true = true) :
    LogicalGroup.parse strings values = Except.ok ⟨0, values⟩ := by
  have h := G_parse_success strings values hne hall (by rw [hS]; exact le_rfl)
  rw [hS] at h
  rw [if_neg (fun hmem => hor (List.mem_singleton.mp hmem).symm)] at h
  exact h

/-- Witness for the amended claim C7 at a non-keyword segment banana. -/
theorem claim_C7_witness :
    LogicalGroup.parse [[], " banana ".data] [sampleExpr "a" 1] =
      Except.ok ⟨0, [sampleExpr "a" 1]⟩ :=
  claim_C7 [[], " banana ".data] [sampleExpr "a" 1] "banana".data
    (by decide) (by decide) (List.cons_ne_nil _ _) (by decide)

/-- Claim C8: inserting arbitrary extra whitespace or newlines before the
key token, between the key and the possibly-negated operator token, and
after the operator token leaves the parsed expression record unchanged:
the result depends only on the key, the operator, the negation flag and
the value. -/
theorem claim_C8 (ws0 k ws1 ws2 s1 : List Char) (nf : Bool) (op : Operator) (value : JSValue)
    (hws0 : ∀ c ∈ ws0, isSpaceChar c = true)
    (hk : k ≠ []) (hkw : ∀ c ∈ k, isWordChar c = true)
    (hws1 : ws1 ≠ []) (hwss1 : ∀ c ∈ ws1, isSpaceChar c = true)
    (hwss2 : ∀ c ∈ ws2, isSpaceChar c = true)
    (hval : acceptableValue op value = Except.ok true) :
    BinaryFilter.parse (ws0 ++ exprText k ws1 nf op ws2) [s1] value [] =
      Except.ok ⟨k, op, value, if nf then 1 else 0⟩ := by
  have hb2 : boundaryOk ws2 = true := by
    cases ws2 with
    | nil => rfl
    | cons c t =>
      rw [boundaryOk_cons, space_not_word (hwss2 c (List.mem_cons_self c t))]
      rfl
  have h := parse_wellformed ws0 k ws1 ws2 nf op s1 value hws0 hk hkw hws1 hwss1 hb2
  rw [exprText, h, hval]

/-- Witness for claim C8 at a template padded with spaces, a newline and a
tab around the tokens. -/
theorem claim_C8_witness :
    BinaryFilter.parse "  age \n not_gt \t".data [[]] (JSValue.num 5) [] =
      Except.ok ⟨"age".data, Operator.gt, JSValue.num 5, 1⟩ :=
  claim_C8 "  ".data "age".data " \n ".data " \t".data [] true .gt (JSValue.num 5)
    (by decide) (by decide) (by decide) (by decide) (by decide) (by decide) rfl

/-- Claim C9: with exactly one interpolated value but a first literal
segment of length at most two, the parser reports the single-expression
arity error, not the missing-key-or-operator error. -/
theorem claim_C9 (expression s : List Char) (value : JSValue)
    (hlen : expression.length ≤ 2) :
    BinaryFilter.parse expression [s] value [] =
      Except.error "Only a single expression is supported" := by
  rw [BinaryFilter.parse, if_neg]
  intro hc
  exact absurd hc.1 (by omega)

/-- Witness for claim C9 at the two-character segment x followed by a
space. -/
theorem claim_C9_witness :
    BinaryFilter.parse ['x', ' '] [[]] (JSValue.num 1) [] =
      Except.error "Only a single expression is supported" :=
  claim_C9 ['x', ' '] [] (JSValue.num 1) (by decide)

/-- Claim C10: acceptableValue never returns false, it either returns true
or throws; consequently, once the tokenizer has extracted a key and a
valid operator in a single-value call, parse can never end in the
missing-key-or-operator error: a value-shape violation always surfaces as
the operator-specific message. -/
theorem claim_C10 :
    (∀ (op : Operator) (v : JSValue), acceptableValue op v ≠ Except.ok false) ∧
    (∀ (expression s : List Char) (value : JSValue) (key : List Char) (nf : Bool) (op : Operator),
      execRE expression = some (key, nf, op) → 2 < expression.length →
      BinaryFilter.parse expression [s] value [] ≠ Except.error invalidExpressionMsg) := by
  constructor
  · intro op v
    rw [acceptableValue_eq]
    split <;> simp
  · intro expression s value key nf op hexec hlen
    have hc1 : expression.length > 2 ∧ ([s] : List (List Char)).length = 1 ∧
        ([] : List JSValue).length = 0 := ⟨hlen, rfl, rfl⟩
    rw [BinaryFilter.parse, if_pos hc1]
    simp only [hexec]
    have hc2 : key ≠ [] ∧ isOperator (opStr op) = true :=
      ⟨execRE_key_ne_nil hexec, isOperator_opStr op⟩
    rw [if_pos hc2, acceptableValue_eq]
    cases hsh : specValueShape op value
    · simp [hsh, shapeErrorMsg_ne_invalid op]
    · simp [hsh]

/-- Witness for claim C10 at a shape-violating value: the error is the
operator-specific one, not the missing-key-or-operator one. -/
theorem claim_C10_witness :
    BinaryFilter.parse "x eq ".data [[]] (JSValue.obj []) [] ≠ Except.error invalidExpressionMsg :=
  claim_C10.2 "x eq ".data [] (JSValue.obj []) "x".data false .eq rfl (by decide)
